import Mathlib

/-!
Verification of the quote-capture / compose / send pipeline of the
"Ask Gemini" browser extension (content script plus settings popup).

Strings of the JavaScript source are modelled as `List Char`; the string
primitives the source relies on (`trim`, first-occurrence `replace` with
its substitution escapes, the newline-collapsing regex replaces, `split`
style scans) are embedded as executable functions on character lists.
The rendered DOM that selection extraction walks is modelled by a small
tree type, and the controller state touched by the send interception
handlers is modelled as an explicit record acted on by transition
functions, one per source event handler or timer callback.
-/

/-- Character-list model of a JavaScript string. -/
abbrev Str := List Char

/-- Coercion from a Lean string literal into the character-list model. -/
def str (s : String) : Str := s.data

/-- Whitespace test backing the embedding of JavaScript `trim`. -/
def isWsChar (c : Char) : Bool :=
  c == ' ' || c == '\t' || c == '\n' || c == '\r'

/-- Embedding of JavaScript `s.trimStart()`. -/
def jsTrimStart (l : Str) : Str := l.dropWhile isWsChar

/-- Embedding of JavaScript `s.trimEnd()`. -/
def jsTrimEnd (l : Str) : Str := (l.reverse.dropWhile isWsChar).reverse

/-- Embedding of JavaScript `s.trim()`. -/
def jsTrim (l : Str) : Str := jsTrimEnd (jsTrimStart l)

/-- Worker for the blank-line collapse: `k` counts how many newlines of the
current run have already been kept.  Each maximal newline run keeps at most
two newlines, which is exactly the effect of the source replacing every run
of three or more newlines by two (content.js line 275). -/
def collapseAux (k : Nat) : Str → Str
  | [] => []
  | c :: r =>
    if c = '\n' then
      if k < 2 then '\n' :: collapseAux (k + 1) r else collapseAux k r
    else c :: collapseAux 0 r

/-- Embedding of the source step that collapses runs of three or more
consecutive newlines down to exactly two. -/
def collapseBlankLines (s : Str) : Str := collapseAux 0 s

/-- Length of the leading run of newline characters. -/
def leadNL (l : Str) : Nat := (l.takeWhile (fun c => c == '\n')).length

/-- Decides whether a string contains a run of three or more consecutive
newlines, the pattern rewritten by `collapseBlankLines`. -/
def hasTripleNL : Str → Bool
  | [] => false
  | c :: r => (c == '\n' && decide (2 ≤ leadNL r)) || hasTripleNL r

/-- Popup helper `toDisplay`: replace every real newline by the
two-character sequence backslash-n (popup script lines 21-23). -/
def toDisplay : Str → Str
  | [] => []
  | c :: r => if c = '\n' then '\\' :: 'n' :: toDisplay r else c :: toDisplay r

/-- Popup helper `fromDisplay`: replace every backslash-n pair by a real
newline, scanning left to right as the global regex replace does
(popup script lines 29-31). -/
def fromDisplay : Str → Str
  | [] => []
  | [c] => [c]
  | c :: d :: r =>
    if c = '\\' ∧ d = 'n' then '\n' :: fromDisplay r
    else c :: fromDisplay (d :: r)

/-- Decides whether a string contains the two-character substring
backslash-n, the pattern consumed by `fromDisplay`. -/
def hasBSn : Str → Bool
  | [] => false
  | [_] => false
  | c :: d :: r => (c == '\\' && d == 'n') || hasBSn (d :: r)

/-- Does `pat` occur in `l` starting at index `i`. -/
def occursAt (pat l : Str) (i : Nat) : Bool := pat.isPrefixOf (l.drop i)

/-- Number of indices of `l` at which `pat` occurs (overlapping counted). -/
def countOcc (pat l : Str) : Nat :=
  ((List.range (l.length + 1)).filter (occursAt pat l)).length

/-- Index of the first occurrence of `pat` in `l`, as JavaScript
`indexOf` computes it for the string-pattern form of `replace`. -/
def firstOccIdx (pat l : Str) : Option Nat :=
  (List.range (l.length + 1)).find? (occursAt pat l)

/-- GetSubstitution step of JavaScript `String.prototype.replace`: the
replacement string is scanned for dollar escapes; a dollar-dollar pair
yields a literal dollar, dollar-ampersand the matched text, dollar-backquote
the part before the match, dollar-quote the part after it, and anything
else is copied verbatim. -/
def getSubst (matched pre post : Str) : Str → Str
  | [] => []
  | [c] => [c]
  | c :: d :: r =>
    if c = '$' then
      if d = '$' then '$' :: getSubst matched pre post r
      else if d = '&' then matched ++ getSubst matched pre post r
      else if d = Char.ofNat 96 then pre ++ getSubst matched pre post r
      else if d = Char.ofNat 39 then post ++ getSubst matched pre post r
      else '$' :: getSubst matched pre post (d :: r)
    else c :: getSubst matched pre post (d :: r)

/-- Embedding of JavaScript `l.replace(pat, rep)` with a string pattern:
only the first occurrence is replaced, and the replacement text is run
through `getSubst`. -/
def jsReplaceOnce (l pat rep : Str) : Str :=
  match firstOccIdx pat l with
  | none => l
  | some i =>
    l.take i ++ getSubst pat (l.take i) (l.drop (i + pat.length)) rep ++
      l.drop (i + pat.length)

/-- Placeholder token of the citation template (source `"[SELECTED]"`). -/
def placeholderTok : Str := str "[SELECTED]"

/-- Merged citation as built by `composeAndSend` (content.js line 1100) and
`injectTextToInput` (second generation, line 1925):
`citationFormat.replace("[SELECTED]", quotedText)`. -/
def composedCitation (template quoted : Str) : Str :=
  jsReplaceOnce template placeholderTok quoted

/-- Substring test, embedding JavaScript `indexOf(...) !== -1`. -/
def strContains (l pat : Str) : Bool := (firstOccIdx pat l).isSome

/-- Element of the rendered tree: tag name (lower case), attribute list and
class list.  Used both for tree nodes and for ancestor chains. -/
structure Elem where
  tag : Str
  classes : List Str
  attrs : List (Str × Str)

/-- Class-list membership, as `classList.contains` / a class selector. -/
def hasClass (classes : List Str) (c : Str) : Bool := classes.contains c

/-- Attribute lookup, as `getAttribute` (absent attribute gives `none`). -/
def lookupAttr (attrs : List (Str × Str)) (k : Str) : Option Str :=
  (attrs.find? (fun p => decide (p.1 = k))).map (fun p => p.2)

/-- Attribute presence, as the CSS `[attr]` selector form. -/
def hasAttrKey (attrs : List (Str × Str)) (k : Str) : Bool :=
  (lookupAttr attrs k).isSome

/-- Node of the rendered tree (text node, or element with children).
Comment and other node kinds, which the source treats as empty, are not
represented. -/
inductive Dom where
  | text : Str → Dom
  | elem : Str → List (Str × Str) → List Str → List Dom → Dom

/-- Inline math output convention of the source: the recovered source
notation wrapped in single dollars. -/
def wrapInline (l : Str) : Str := '$' :: (l ++ ['$'])

/-- Block math output convention of the source: the recovered source
notation wrapped in double dollars. -/
def wrapDisplay (l : Str) : Str := '$' :: '$' :: (l ++ ['$', '$'])

/-- Wrap source notation according to the display-mode flag. -/
def wrapMath (block : Bool) (l : Str) : Str :=
  if block then wrapDisplay l else wrapInline l

/-- Does an element match the math-marker selector list used by the
`hasMath` quick check (content.js lines 250-254), covering both class,
tag and attribute selectors of that list. -/
def isMathMarkerElem (t : Str) (attrs : List (Str × Str)) (classes : List Str) : Bool :=
  hasClass classes (str "katex") || hasClass classes (str "katex-display") ||
  hasClass classes (str "MathJax") || t == str "mjx-container" || t == str "math" ||
  hasClass classes (str "math-inline") || hasClass classes (str "math-block") ||
  hasAttrKey attrs (str "data-math")

mutual

/-- Does a node or one of its descendants match a math marker. -/
def domHasMath : Dom → Bool
  | Dom.text _ => false
  | Dom.elem t a c ch => isMathMarkerElem t a c || nodesHaveMath ch

/-- Does any node of the forest match a math marker. -/
def nodesHaveMath : List Dom → Bool
  | [] => false
  | d :: ds => domHasMath d || nodesHaveMath ds

end

mutual

/-- Text content of a node: concatenation of all text nodes, as the DOM
`textContent` accessor returns it. -/
def textContentOfDom : Dom → Str
  | Dom.text s => s
  | Dom.elem _ _ _ ch => textContentOfNodes ch

def textContentOfNodes : List Dom → Str
  | [] => []
  | d :: ds => textContentOfDom d ++ textContentOfNodes ds

end

mutual

/-- First match of the selector `annotation[encoding="application/x-tex"]`
in document order (self or descendant), returning its text content
(`some ""` when the element exists but is empty, `none` when no such
element exists — the source distinguishes the two). -/
def texAnnOfDom : Dom → Option Str
  | Dom.text _ => none
  | Dom.elem t a _ ch =>
    if t = str "annotation" ∧ lookupAttr a (str "encoding") = some (str "application/x-tex")
    then some (textContentOfNodes ch)
    else texAnnOfNodes ch

def texAnnOfNodes : List Dom → Option Str
  | [] => none
  | d :: ds =>
    match texAnnOfDom d with
    | some l => some l
    | none => texAnnOfNodes ds

end

mutual

/-- First match of `script[type="math/tex"]` (exact attribute match, as the
CSS selector requires), returning its text content. -/
def scriptTexOfDom : Dom → Option Str
  | Dom.text _ => none
  | Dom.elem t a _ ch =>
    if t = str "script" ∧ lookupAttr a (str "type") = some (str "math/tex")
    then some (textContentOfNodes ch)
    else scriptTexOfNodes ch

def scriptTexOfNodes : List Dom → Option Str
  | [] => none
  | d :: ds =>
    match scriptTexOfDom d with
    | some l => some l
    | none => scriptTexOfNodes ds

end

/-- Does an element's class list match the orphan selector list
`.katex-display, .katex, .katex-html` of `annotateMathFromOriginalDOM`. -/
def isOrphanClassElem (classes : List Str) : Bool :=
  hasClass classes (str "katex-display") || hasClass classes (str "katex") ||
  hasClass classes (str "katex-html")

mutual

/-- Does a node or one of its descendants match the orphan selector list. -/
def domHasOrphanClass : Dom → Bool
  | Dom.text _ => false
  | Dom.elem _ _ c ch => isOrphanClassElem c || nodesHaveOrphanClass ch

/-- Does any node of the forest match the orphan selector list. -/
def nodesHaveOrphanClass : List Dom → Bool
  | [] => false
  | d :: ds => domHasOrphanClass d || nodesHaveOrphanClass ds

end

mutual

/-- Wrapping step of `annotateMathFromOriginalDOM` for one `[data-math]`
element of the original tree: every orphan-class node without a
`[data-math]` self-or-ancestor (tracked by `underDM`) is wrapped in a new
`math-block`/`math-inline` element carrying the recovered notation; the
wrapped subtree is left untouched, as `insertBefore`/`appendChild` leave it. -/
def wrapOrphanDom (latex : Str) (isBlock : Bool) (underDM : Bool) : Dom → Dom
  | Dom.text s => Dom.text s
  | Dom.elem t a c ch =>
    let selfDM := underDM || hasAttrKey a (str "data-math")
    if !selfDM && isOrphanClassElem c then
      Dom.elem (if isBlock then str "div" else str "span")
        [(str "data-math", latex)]
        [if isBlock then str "math-block" else str "math-inline"]
        [Dom.elem t a c ch]
    else Dom.elem t a c (wrapOrphanNodes latex isBlock selfDM ch)

def wrapOrphanNodes (latex : Str) (isBlock : Bool) (underDM : Bool) : List Dom → List Dom
  | [] => []
  | d :: ds =>
    wrapOrphanDom latex isBlock underDM d :: wrapOrphanNodes latex isBlock underDM ds

end

/-- Embedding of `annotateMathFromOriginalDOM` (content.js lines 294-348):
if the fragment holds orphan-class nodes, each `[data-math]` element of the
original tree intersecting the range (given here as its recovered notation
and display-mode flag, in document order) wraps the orphans not yet covered
by a `[data-math]` wrapper. -/
def annotateFragment (origMath : List (Str × Bool)) (frag : List Dom) : List Dom :=
  if nodesHaveOrphanClass frag = false then frag
  else origMath.foldl (fun f lb => wrapOrphanNodes lb.1 lb.2 false f) frag

mutual

/-- Pass 0a/0b of `replaceMathElements` (content.js lines 362-376): elements
matching `.math-block[data-math]` (when `block`) or `.math-inline[data-math]`
are replaced by a text node with the wrapped notation; an empty attribute
value is falsy in the source and leaves the element in place. -/
def passDataMathDom (block : Bool) : Dom → Dom
  | Dom.text s => Dom.text s
  | Dom.elem t a c ch =>
    if hasClass c (if block then str "math-block" else str "math-inline") &&
        hasAttrKey a (str "data-math") then
      match lookupAttr a (str "data-math") with
      | some l =>
        if l.isEmpty then Dom.elem t a c (passDataMathNodes block ch)
        else Dom.text (wrapMath block l)
      | none => Dom.elem t a c (passDataMathNodes block ch)
    else Dom.elem t a c (passDataMathNodes block ch)

def passDataMathNodes (block : Bool) : List Dom → List Dom
  | [] => []
  | d :: ds => passDataMathDom block d :: passDataMathNodes block ds

end

mutual

/-- Passes 1 and 2 of `replaceMathElements` (content.js lines 378-407):
`.katex-display` (when `disp`) or `.katex` elements are replaced by the
wrapped notation taken from their TeX annotation descendant, or failing
that from the nearest `[data-math]` self-or-ancestor (`anc` carries the
nearest enclosing value, updated on the way down); an empty notation is
falsy in the source and leaves the element in place. -/
def passKatexDom (disp : Bool) (anc : Option Str) : Dom → Dom
  | Dom.text s => Dom.text s
  | Dom.elem t a c ch =>
    let anc2 := match lookupAttr a (str "data-math") with
      | some v => some v
      | none => anc
    if hasClass c (if disp then str "katex-display" else str "katex") then
      match texAnnOfNodes ch with
      | some l =>
        if l.isEmpty then Dom.elem t a c (passKatexNodes disp anc2 ch)
        else Dom.text (wrapMath disp l)
      | none =>
        match anc2 with
        | some l =>
          if l.isEmpty then Dom.elem t a c (passKatexNodes disp anc2 ch)
          else Dom.text (wrapMath disp l)
        | none => Dom.elem t a c (passKatexNodes disp anc2 ch)
    else Dom.elem t a c (passKatexNodes disp anc2 ch)

def passKatexNodes (disp : Bool) (anc : Option Str) : List Dom → List Dom
  | [] => []
  | d :: ds => passKatexDom disp anc d :: passKatexNodes disp anc ds

end

mutual

/-- Pass 3 of `replaceMathElements` (content.js lines 409-421):
`mjx-container` elements are replaced by their `script[type="math/tex"]`
descendant's text, or failing that (including an empty script, falsy in the
source) the `aria-label` attribute; display mode comes from the `display`
attribute being `block`. -/
def passMjxDom : Dom → Dom
  | Dom.text s => Dom.text s
  | Dom.elem t a c ch =>
    if t = str "mjx-container" then
      let isD := lookupAttr a (str "display") = some (str "block")
      let s1 := (scriptTexOfNodes ch).getD []
      let latex := if s1.isEmpty then (lookupAttr a (str "aria-label")).getD [] else s1
      if latex.isEmpty then Dom.elem t a c (passMjxNodes ch)
      else Dom.text (wrapMath isD latex)
    else Dom.elem t a c (passMjxNodes ch)

def passMjxNodes : List Dom → List Dom
  | [] => []
  | d :: ds => passMjxDom d :: passMjxNodes ds

end

/-- Leading text nodes of a forest followed by its first element, as
`nextElementSibling` skips text nodes: returns the skipped text nodes, the
first element and the remainder, or `none` if no element follows. -/
def splitFirstElem : List Dom → List Dom × Option (Dom × List Dom)
  | [] => ([], none)
  | Dom.text s :: ds =>
    let r := splitFirstElem ds
    (Dom.text s :: r.1, r.2)
  | Dom.elem t a c ch :: ds => ([], some (Dom.elem t a c ch, ds))

def splitFirstElem_sizeOf :
    ∀ (ds rest : List Dom) (ts : List Dom) (d : Dom),
      splitFirstElem ds = (ts, some (d, rest)) → sizeOf rest < sizeOf ds := by
  intro ds
  induction ds with
  | nil => intro rest ts d h; simp [splitFirstElem] at h
  | cons a ds ih =>
    intro rest ts d h
    cases a with
    | text s =>
      simp only [splitFirstElem, Prod.mk.injEq] at h
      have h2 : splitFirstElem ds = ((splitFirstElem ds).1, some (d, rest)) := by
        rw [← h.2]
      have h3 := ih rest (splitFirstElem ds).1 d h2
      have h4 : sizeOf ds < sizeOf (Dom.text s :: ds) := by simp
      omega
    | elem t a2 c ch =>
      simp only [splitFirstElem, Prod.mk.injEq] at h
      obtain ⟨-, h2⟩ := h
      injection h2 with h3
      injection h3 with h4 h5
      subst h5
      simp

/-- Pass 4 of `replaceMathElements` (content.js lines 423-439): a `.MathJax`
element whose next element sibling is a `script` with a `type` containing
`math/tex` is replaced by the script's wrapped text content (a `display`
substring of the type string selects block mode) and the script is removed;
the skipped text-node siblings stay in place.  Other elements recurse into
their children. -/
def passMj2Nodes : List Dom → List Dom
  | [] => []
  | Dom.text s :: ds => Dom.text s :: passMj2Nodes ds
  | Dom.elem t a c ch :: ds =>
    if hasClass c (str "MathJax") then
      match h : splitFirstElem ds with
      | (ts, some (Dom.elem st sa sc2 sch, rest)) =>
        if st = str "script" ∧
            strContains ((lookupAttr sa (str "type")).getD []) (str "math/tex") then
          Dom.text (wrapMath
              (strContains ((lookupAttr sa (str "type")).getD []) (str "display"))
              (textContentOfNodes sch)) :: (ts ++ passMj2Nodes rest)
        else Dom.elem t a c (passMj2Nodes ch) :: passMj2Nodes ds
      | (_, some (Dom.text _, _)) => Dom.elem t a c (passMj2Nodes ch) :: passMj2Nodes ds
      | (_, none) => Dom.elem t a c (passMj2Nodes ch) :: passMj2Nodes ds
    else Dom.elem t a c (passMj2Nodes ch) :: passMj2Nodes ds
termination_by l => sizeOf l
decreasing_by
  all_goals simp_wf
  all_goals try omega
  have h2 := splitFirstElem_sizeOf ds rest ts (Dom.elem st sa sc2 sch) h
  omega

mutual

/-- Pass 5 of `replaceMathElements` (content.js lines 441-453): `math`
elements with a TeX annotation descendant are replaced by the wrapped
annotation text (the source checks only that the annotation element exists,
so an empty annotation still replaces); display mode comes from the
`display` attribute being `block`. -/
def passMathTagDom : Dom → Dom
  | Dom.text s => Dom.text s
  | Dom.elem t a c ch =>
    if t = str "math" then
      match texAnnOfNodes ch with
      | some l =>
        Dom.text (wrapMath (decide (lookupAttr a (str "display") = some (str "block"))) l)
      | none => Dom.elem t a c (passMathTagNodes ch)
    else Dom.elem t a c (passMathTagNodes ch)

def passMathTagNodes : List Dom → List Dom
  | [] => []
  | d :: ds => passMathTagDom d :: passMathTagNodes ds

end

mutual

/-- Pass 6 of `replaceMathElements` (content.js lines 455-462): subtrees
whose root matches `.katex-mathml`, `.MathJax_Preview` or `.katex-html`
are removed so hidden duplicate math renderings contribute no text. -/
def cleanupDom : Dom → Option Dom
  | Dom.text s => some (Dom.text s)
  | Dom.elem t a c ch =>
    if hasClass c (str "katex-mathml") || hasClass c (str "MathJax_Preview") ||
        hasClass c (str "katex-html") then none
    else some (Dom.elem t a c (cleanupNodes ch))

def cleanupNodes : List Dom → List Dom
  | [] => []
  | d :: ds =>
    match cleanupDom d with
    | none => cleanupNodes ds
    | some d2 => d2 :: cleanupNodes ds

end

/-- Embedding of `replaceMathElements` (content.js lines 357-463): the six
passes applied to the fragment forest in source order — display then inline
`data-math` wrappers, display then inline KaTeX, MathJax 3, MathJax 2,
MathML, then cleanup of hidden duplicates. -/
def replaceMathElements (frag : List Dom) : List Dom :=
  cleanupNodes (passMathTagNodes (passMj2Nodes (passMjxNodes
    (passKatexNodes false none (passKatexNodes true none
      (passDataMathNodes false (passDataMathNodes true frag)))))))

/-- Worker collapsing every run of newlines to a single space, the cell
normalization `replace(/\n+/g, " ")` of `tableToMarkdown`. -/
def nlToSpaceAux (inRun : Bool) : Str → Str
  | [] => []
  | c :: r =>
    if c = '\n' then
      if inRun then nlToSpaceAux true r else ' ' :: nlToSpaceAux true r
    else c :: nlToSpaceAux false r

/-- Collapse every maximal newline run to one space. -/
def collapseNLRunsToSpace (l : Str) : Str := nlToSpaceAux false l

/-- Cell text normalization of `tableToMarkdown` (content.js lines 479-481):
trim, then collapse internal newline runs to single spaces so the cell
stays on one line. -/
def cellProcess (s : Str) : Str := collapseNLRunsToSpace (jsTrim s)

/-- Maximum column count across rows (content.js lines 490-493). -/
def maxCols (m : List (List Str)) : Nat :=
  m.foldl (fun acc row => max acc row.length) 0

/-- Pad a short row with empty cells up to `n` columns (lines 496-498). -/
def padRow (n : Nat) (row : List Str) : List Str :=
  row ++ List.replicate (n - row.length) []

/-- Width of column `c`: the longest cell of that column, at least 3
(content.js lines 501-508). -/
def colWidth (m : List (List Str)) (c : Nat) : Nat :=
  m.foldl (fun acc row => max acc (row.getD c []).length) 3

/-- Right-pad a cell with spaces to the column width (lines 511-514). -/
def padCell (s : Str) (w : Nat) : Str := s ++ List.replicate (w - s.length) ' '

/-- Embedding of `Array.prototype.join`. -/
def joinSep (sep : Str) : List Str → Str
  | [] => []
  | [x] => x
  | x :: xs => x ++ sep ++ joinSep sep xs

/-- One pipe-delimited table line: cells padded to the column widths and
joined in the `| cell | cell |` convention (content.js lines 516-536). -/
def rowLine (ws : List Nat) (row : List Str) : Str :=
  str "| " ++ joinSep (str " | ") (List.zipWith padCell row ws) ++ str " |"

/-- Separator line of dashes sized to each column width (lines 523-527). -/
def sepLine (ws : List Nat) : Str :=
  str "| " ++ joinSep (str " | ") (ws.map (fun w => List.replicate w '-')) ++ str " |"

/-- Embedding of `tableToMarkdown` (content.js lines 468-539), taking the
per-cell raw text extracted from each `tr`'s `th`/`td` cells: normalize
cells, rectangularize to the maximum column count, compute widths, then
emit header line (row 0), dash separator and the remaining rows joined by
newlines.  An empty row list yields the empty string. -/
def tableToMarkdown (rawRows : List (List Str)) : Str :=
  if rawRows.isEmpty then []
  else
    let m0 := rawRows.map (fun row => row.map cellProcess)
    let n := maxCols m0
    let m := m0.map (padRow n)
    let ws := (List.range n).map (colWidth m)
    match m with
    | [] => []
    | hd :: tl => joinSep ['\n'] (rowLine ws hd :: sepLine ws :: tl.map (rowLine ws))

/-- Block-level tags after which `getTextFromFragment` appends a newline
(content.js lines 581-585). -/
def blockTags : List Str :=
  [str "p", str "div", str "h1", str "h2", str "h3", str "h4", str "h5", str "h6",
   str "li", str "blockquote", str "pre", str "hr", str "section", str "article"]

/-- Does a string end with a newline, as `result.endsWith("\n")`. -/
def endsWithNL (l : Str) : Bool :=
  match l.getLast? with
  | some c => c == '\n'
  | none => false

mutual

/-- Embedding of `getTextFromFragment` (content.js lines 546-591): text
nodes yield their content; `table` delegates to the Markdown serializer
wrapped in newlines; `br` yields a newline; `style`/`script` yield nothing;
other elements concatenate their children, block-level tags appending a
trailing newline to a non-empty result not already ending in one. -/
def getTextFromFragment : Dom → Str
  | Dom.text s => s
  | Dom.elem t _ _ ch =>
    if t = str "table" then '\n' :: (tableToMarkdown (rowsOfNodes ch) ++ ['\n'])
    else if t = str "br" then ['\n']
    else if t = str "style" ∨ t = str "script" then []
    else
      let r := textOfNodes ch
      if blockTags.contains t && !r.isEmpty && !endsWithNL r then r ++ ['\n'] else r

/-- Concatenated serialization of a forest (a document fragment's child
list falls through to exactly this concatenation in the source). -/
def textOfNodes : List Dom → Str
  | [] => []
  | d :: ds => getTextFromFragment d ++ textOfNodes ds

/-- Rows gathered by `tableEl.querySelectorAll("tr")`: every descendant
`tr` in document order, each contributing the raw texts of its descendant
cells. -/
def rowsOfNodes : List Dom → List (List Str)
  | [] => []
  | Dom.text _ :: ds => rowsOfNodes ds
  | Dom.elem t _ _ ch :: ds =>
    if t = str "tr" then (cellsOfNodes ch :: rowsOfNodes ch) ++ rowsOfNodes ds
    else rowsOfNodes ch ++ rowsOfNodes ds

/-- Cells gathered by `tr.querySelectorAll("th, td")`: every descendant
`th`/`td` in document order; the cell text is its serialized content
(`th`/`td` are not block tags, so `getTextFromFragment` on the cell is its
children's concatenation). -/
def cellsOfNodes : List Dom → List Str
  | [] => []
  | Dom.text _ :: ds => cellsOfNodes ds
  | Dom.elem t _ _ ch :: ds =>
    if t = str "th" ∨ t = str "td" then (textOfNodes ch :: cellsOfNodes ch) ++ cellsOfNodes ds
    else cellsOfNodes ch ++ cellsOfNodes ds

end

/-- Selection as handed to the content script: range count, the plain
visual text `selection.toString()`, the element chain of the range's start
(innermost first, after the source's text-node-to-parent normalization),
the common ancestor container's chain given as a suffix of it (the common
ancestor is an ancestor of the start), the cloned fragment's child forest,
the `[data-math]` elements of the original tree intersecting the range
(notation and display-mode flag, document order), and a fault flag
modelling a DOM exception thrown inside the `try` block of
`extractTextWithMath` at the fragment-processing steps. -/
structure Selection where
  rangeCount : Nat
  plain : Str
  anchorChain : List Elem
  caDrop : Nat
  fragment : List Dom
  origMath : List (Str × Bool)
  cloneFault : Bool

/-- Chain of the common ancestor container, a suffix of the start chain. -/
def Selection.caChain (s : Selection) : List Elem := s.anchorChain.drop s.caDrop

/-- Phase 0 of `extractTextWithMath` (content.js lines 226-243): `closest`
on the common ancestor looks for a `[data-math]` carrier, else a
`.math-block`, else a `.math-inline`; if the wrapper found carries a
non-empty `data-math` attribute, the wrapped notation is returned directly,
block mode when the wrapper has class `math-block`. -/
def phase0Result (chain : List Elem) : Option Str :=
  let mp : Option Elem :=
    match chain.find? (fun e => hasAttrKey e.attrs (str "data-math")) with
    | some e => some e
    | none =>
      match chain.find? (fun e => hasClass e.classes (str "math-block")) with
      | some e => some e
      | none => chain.find? (fun e => hasClass e.classes (str "math-inline"))
  match mp with
  | none => none
  | some mp =>
    match lookupAttr mp.attrs (str "data-math") with
    | some l =>
      if l.isEmpty then none
      else some (wrapMath (hasClass mp.classes (str "math-block")) l)
    | none => none

/-- Body of the `try` block of `extractTextWithMath` (content.js lines
218-277): phase 0 on the original tree; else clone (where a DOM fault, if
any, surfaces), quick math check with plain-text fast path, orphan
annotation, math replacement, serialization, trim and blank-line
collapse. -/
def extractBody (sel : Selection) : Except Unit Str :=
  match phase0Result sel.caChain with
  | some r => Except.ok r
  | none =>
    if sel.cloneFault then Except.error ()
    else if nodesHaveMath sel.fragment = false then Except.ok (jsTrim sel.plain)
    else
      Except.ok (collapseBlankLines (jsTrim (textOfNodes
        (replaceMathElements (annotateFragment sel.origMath sel.fragment)))))

/-- Embedding of `extractTextWithMath` (content.js lines 213-282): empty
result for a rangeless selection; otherwise the `try` body, falling back to
the trimmed plain visual text if any step of the body throws. -/
def extractTextWithMath (sel : Selection) : Str :=
  if sel.rangeCount = 0 then []
  else
    match extractBody sel with
    | Except.ok t => t
    | Except.error _ => jsTrim sel.plain

/-- CSS selector forms used by the source's selector lists. -/
inductive Sel where
  | tagSel : Str → Sel
  | classSel : Str → Sel
  | attrValSel : Str → Str → Sel

/-- Element-level selector match (`el.matches`). -/
def matchesSel (e : Elem) : Sel → Bool
  | Sel.tagSel t => e.tag == t
  | Sel.classSel c => hasClass e.classes c
  | Sel.attrValSel k v => lookupAttr e.attrs k == some v

/-- The source's `EXCLUDE_SELECTORS` list (content.js lines 68-77). -/
def excludeSelectors : List Sel :=
  [Sel.tagSel (str "rich-textarea"), Sel.classSel (str "text-input-field"),
   Sel.classSel (str "input-area-container"), Sel.classSel (str "input-area"),
   Sel.tagSel (str "button"), Sel.attrValSel (str "role") (str "button"),
   Sel.classSel (str "toolbar"), Sel.classSel (str "action-bar")]

/-- The source's `RESPONSE_SELECTORS` list (content.js lines 31-43). -/
def responseSelectors : List Sel :=
  [Sel.classSel (str "model-response-text"), Sel.classSel (str "response-container-content"),
   Sel.classSel (str "response-container"), Sel.classSel (str "message-content"),
   Sel.classSel (str "markdown-main-panel"), Sel.classSel (str "model-response"),
   Sel.attrValSel (str "data-message-author-role") (str "model"),
   Sel.classSel (str "markdown"), Sel.classSel (str "markdown-body")]

/-- `isInsideSelector` (content.js lines 128-146): does the element or any
ancestor match any of the selectors (`matches` or `closest`). -/
def isInsideSelector (chain : List Elem) (sels : List Sel) : Bool :=
  sels.any (fun s => chain.any (fun e => matchesSel e s))

/-- `isValidSelectionArea` (content.js lines 152-178): false without a
range; false when the common ancestor chain hits an excluded selector; true
when it hits a response selector; true as the permissive fallback. -/
def isValidSelectionArea (sel : Selection) : Bool :=
  if sel.rangeCount = 0 then false
  else if isInsideSelector sel.caChain excludeSelectors then false
  else if isInsideSelector sel.caChain responseSelectors then true
  else true

/-- Capture step of `handleMouseUp` (content.js lines 1226-1256): extract;
stop on empty text or invalid area; otherwise record the raw text together
with the plain display text `selection.toString().trim()` (the `: text`
arm of the ternary on line 1248 is unreachable, a null selection having
already produced empty text). -/
def handleMouseUpResult (sel : Selection) : Option (Str × Str) :=
  let t := extractTextWithMath sel
  if t.isEmpty then none
  else if isValidSelectionArea sel = false then none
  else some (t, jsTrim sel.plain)

/-- `showQuoteChip` (content.js lines 1024-1026): `quotedText` is the raw
text, `quotedDisplayText` is `visibleText || text`, falling back to the raw
text when the visible text is empty. -/
def showQuoteChipPair (text visibleText : Str) : Str × Str :=
  (text, if visibleText.isEmpty then text else visibleText)

/-- Quote state `(quotedText, quotedDisplayText)` after the user commits
the captured selection via the bubble (`handleBubbleClick` passing the
recorded pair to `showQuoteChip`). -/
def quoteStateAfterCommit (sel : Selection) : Option (Str × Str) :=
  (handleMouseUpResult sel).map (fun p => showQuoteChipPair p.1 p.2)

/-- Default citation template of the source (`DEFAULT_CITATION_FORMAT`). -/
def defaultCitationFormat : Str :=
  str "Regarding the following selected content:\n------\n[SELECTED]\n------\n"

/-- Environment of one send interaction: whether injection succeeds
(`injectFormattedText`), whether `findSendButton` and `findInputElement`
succeed, the live input text read by `getUserInput`, and the cached
citation template. -/
structure SendEnv where
  injectOk : Bool
  sendBtnFound : Bool
  inputFound : Bool
  userInput : Str
  citationTemplate : Str

/-- Controller state: the quote chip state (content.js lines 22-26), the
bypass flag, the two pending timer callbacks scheduled by `composeAndSend`,
a count of native send actions that reached the host, and the last injected
message. -/
structure CtrlSt where
  quoted : Str
  display : Str
  chip : Bool
  bypass : Bool
  pendingSend : Bool
  pendingClear : Bool
  sends : Nat
  injected : Option Str

/-- `hideQuoteChip` (content.js lines 1048-1055): clears both quote fields
and hides the chip. -/
def hideQuoteChipFn (st : CtrlSt) : CtrlSt :=
  { st with quoted := [], display := [], chip := false }

/-- Full message built by `composeAndSend` (content.js lines 1097-1103):
the citation with the quote substituted, then the live input on a new line,
or the citation alone trimmed of trailing whitespace. -/
def fullMessageOf (env : SendEnv) (quoted : Str) : Str :=
  let citation := composedCitation env.citationTemplate quoted
  if env.userInput.isEmpty then jsTrimEnd citation
  else citation ++ '\n' :: env.userInput

/-- Synchronous part of `composeAndSend` (content.js lines 1093-1148):
no-op without a quote; otherwise build the message, clear the quote chip
first (line 1111), then inject; on failure stop there; on success record
the injected text, raise the bypass flag and schedule the deferred send. -/
def composeAndSendFn (env : SendEnv) (st : CtrlSt) : CtrlSt :=
  if st.quoted.isEmpty then st
  else
    let msg := fullMessageOf env st.quoted
    let st1 := hideQuoteChipFn st
    if env.injectOk then
      { st1 with injected := some msg, bypass := true, pendingSend := true }
    else st1

/-- Click event dispatch: the capture-phase `handleSendClick` (content.js
lines 1180-1188) intercepts, cancelling the native action, when a quote is
active, the bypass flag is down and the target is a send control; an
unintercepted click on a send control reaches the host as a native send. -/
def dispatchClick (env : SendEnv) (st : CtrlSt) (isSendTarget : Bool) : CtrlSt :=
  if !st.quoted.isEmpty && !st.bypass && isSendTarget then composeAndSendFn env st
  else if isSendTarget then { st with sends := st.sends + 1 } else st

/-- Enter keydown dispatch: the capture-phase `handleEnterToSend`
(content.js lines 1193-1210) intercepts when a quote is active, the bypass
flag is down, an input element exists and the input holds focus; an
unintercepted unshifted Enter with the input focused reaches the host's
send shortcut. -/
def dispatchEnter (env : SendEnv) (st : CtrlSt) (inputFocused : Bool) : CtrlSt :=
  if !st.quoted.isEmpty && !st.bypass && env.inputFound && inputFocused then
    composeAndSendFn env st
  else if inputFocused then { st with sends := st.sends + 1 } else st

/-- Deferred send of `composeAndSend` (content.js lines 1120-1147): with
the bypass flag already up, click the send button when one is found, else
dispatch a synthesized Enter on the input (which the injection focused);
afterwards the bypass reset is scheduled. -/
def fireSendTimer (env : SendEnv) (st : CtrlSt) : CtrlSt :=
  if st.pendingSend then
    let st1 := { st with pendingSend := false }
    let st2 :=
      if env.sendBtnFound then dispatchClick env st1 true
      else if env.inputFound then dispatchEnter env st1 true
      else st1
    { st2 with pendingClear := true }
  else st

/-- Deferred bypass reset of `composeAndSend` (content.js lines 1144-1146). -/
def fireClearTimer (st : CtrlSt) : CtrlSt :=
  if st.pendingClear then { st with pendingClear := false, bypass := false } else st

/-- Both deferred callbacks of `composeAndSend`, in their firing order. -/
def runTimers (env : SendEnv) (st : CtrlSt) : CtrlSt :=
  fireClearTimer (fireSendTimer env st)

def mathWrapElem (X : Str) (b : Bool) : Elem :=
  ⟨str "span", [if b then str "math-block" else str "math-inline"], [(str "data-math", X)]⟩

def selPhase0 (X : Str) (b : Bool) : Selection :=
  ⟨1, str " ", [mathWrapElem X b], 0, [], [], false⟩

def annEl (X : Str) : Dom :=
  Dom.elem (str "annotation") [(str "encoding", str "application/x-tex")] [] [Dom.text X]

def katexMathmlDom (X : Str) : Dom :=
  Dom.elem (str "span") [] [str "katex-mathml"]
    [Dom.elem (str "math") [] [] [Dom.elem (str "semantics") [] [] [annEl X]]]

def katexHtmlDom : Dom :=
  Dom.elem (str "span") [(str "aria-hidden", str "true")] [str "katex-html"] [Dom.text (str "x2")]

def katexDom (X : Str) (block : Bool) : Dom :=
  let inner := Dom.elem (str "span") [] [str "katex"] [katexMathmlDom X, katexHtmlDom]
  if block then Dom.elem (str "span") [] [str "katex-display"] [inner] else inner

def selFragKatex (X : Str) (b : Bool) : Selection :=
  ⟨1, str "x2", [], 0, [katexDom X b], [], false⟩

def splitOnChar (sep : Char) : Str → List Str
  | [] => [[]]
  | c :: r =>
    match splitOnChar sep r with
    | [] => [[]]
    | f :: fs => if c = sep then [] :: f :: fs else (c :: f) :: fs

def tCols (rows : List (List Str)) : Nat := maxCols (rows.map (fun row => row.map cellProcess))

def tMatrix (rows : List (List Str)) : List (List Str) :=
  (rows.map (fun row => row.map cellProcess)).map (padRow (tCols rows))

def tWidths (rows : List (List Str)) : List Nat :=
  (List.range (tCols rows)).map (colWidth (tMatrix rows))

def exTable : List (List Str) := [[str "A", str "BB"], [str "CCC", str "D"]]

def pipeCellTable : List (List Str) := [[['a', '|', 'b']]]

def envFail : SendEnv := ⟨false, true, true, [], defaultCitationFormat⟩

def stC3 : CtrlSt := ⟨str "hi", str "hi", true, false, false, false, 0, none⟩

def selFault : Selection := ⟨1, str "  plain  ", [], 0, [], [], true⟩

def env6 : SendEnv := ⟨true, true, true, [], defaultCitationFormat⟩

def st6 : CtrlSt := ⟨str "q", str "q", true, false, false, false, 0, none⟩

def selW7 : Selection := ⟨1, str " hello ", [], 0, [], [], false⟩

def selC7 : Selection := ⟨1, str " ", [⟨str "span", [str "math-inline"], [(str "data-math", str "x")]⟩], 0, [], [], false⟩

def inputAreaElem : Elem := ⟨str "div", [str "input-area"], []⟩

def bodyElem : Elem := ⟨str "body", [], []⟩

def selC9 : Selection := ⟨1, str "text", [inputAreaElem, bodyElem], 1, [], [], false⟩

def selExcluded : Selection := ⟨1, str "text", [inputAreaElem, bodyElem], 0, [], [], false⟩

def selFallback : Selection := ⟨1, str "text", [bodyElem], 0, [], [], false⟩

theorem leadNL_nil : leadNL [] = 0 := rfl

theorem leadNL_cons (c : Char) (r : Str) :
    leadNL (c :: r) = if c = '\n' then leadNL r + 1 else 0 := by
  by_cases h : c = '\n' <;> simp [leadNL, List.takeWhile_cons, h]

theorem hasTripleNL_cons (c : Char) (r : Str) :
    hasTripleNL (c :: r) = ((c == '\n' && decide (2 ≤ leadNL r)) || hasTripleNL r) := rfl

theorem hasTripleNL_tail {c : Char} {r : Str} (h : hasTripleNL (c :: r) = false) :
    hasTripleNL r = false := by
  rw [hasTripleNL_cons] at h
  exact (Bool.or_eq_false_iff.mp h).2

theorem leadNL_le_two {l : Str} (h : hasTripleNL l = false) : leadNL l ≤ 2 := by
  cases l with
  | nil => simp [leadNL]
  | cons c r =>
    rw [leadNL_cons]
    by_cases hc : c = '\n'
    · subst hc
      rw [hasTripleNL_cons] at h
      have h1 := (Bool.or_eq_false_iff.mp h).1
      simp only [beq_self_eq_true, Bool.true_and, decide_eq_false_iff_not, not_le] at h1
      simp only [if_pos]
      omega
    · simp [hc]

theorem collapseAux_cons_newline (k : Nat) (r : Str) :
    collapseAux k ('\n' :: r) =
      if k < 2 then '\n' :: collapseAux (k + 1) r else collapseAux k r := by
  simp [collapseAux]

theorem collapseAux_cons_other {c : Char} (hc : c ≠ '\n') (k : Nat) (r : Str) :
    collapseAux k (c :: r) = c :: collapseAux 0 r := by
  simp [collapseAux, hc]

theorem collapseAux_eq_self :
    ∀ (l : Str) (k : Nat), hasTripleNL l = false → k + leadNL l ≤ 2 → collapseAux k l = l := by
  intro l
  induction l with
  | nil => intro k _ _; rfl
  | cons c r ih =>
    intro k h hk
    have hr : hasTripleNL r = false := hasTripleNL_tail h
    by_cases hc : c = '\n'
    · subst hc
      rw [leadNL_cons, if_pos rfl] at hk
      have hklt : k < 2 := by omega
      rw [collapseAux_cons_newline, if_pos hklt, ih (k + 1) hr (by omega)]
    · rw [leadNL_cons, if_neg hc] at hk
      rw [collapseAux_cons_other hc, ih 0 hr (by have := leadNL_le_two hr; omega)]

theorem collapseAux_collapseAux (l : Str) :
    ∀ k, collapseAux k (collapseAux k l) = collapseAux k l := by
  induction l with
  | nil => intro k; rfl
  | cons c r ih =>
    intro k
    by_cases hc : c = '\n'
    · subst hc
      by_cases hk : k < 2
      · rw [collapseAux_cons_newline, if_pos hk, collapseAux_cons_newline, if_pos hk,
          ih (k + 1)]
      · rw [collapseAux_cons_newline, if_neg hk, ih k]
    · rw [collapseAux_cons_other hc, collapseAux_cons_other hc, ih 0]

theorem hasBSn_two {c d : Char} {r : Str} (h : hasBSn (c :: d :: r) = false) :
    ¬(c = '\\' ∧ d = 'n') ∧ hasBSn (d :: r) = false := by
  simp only [hasBSn, Bool.or_eq_false_iff, Bool.and_eq_false_iff] at h
  constructor
  · rintro ⟨rfl, rfl⟩
    rcases h.1 with h1 | h1 <;> simp at h1
  · exact h.2

theorem toDisplay_cons_newline (r : Str) :
    toDisplay ('\n' :: r) = '\\' :: 'n' :: toDisplay r := by
  simp only [toDisplay, if_pos]

theorem toDisplay_cons_other {c : Char} (hc : c ≠ '\n') (r : Str) :
    toDisplay (c :: r) = c :: toDisplay r := by
  simp only [toDisplay, if_neg hc]

theorem fromDisplay_cons_bsn (r : Str) :
    fromDisplay ('\\' :: 'n' :: r) = '\n' :: fromDisplay r := by
  simp [fromDisplay]

theorem fromDisplay_cons_two {c d : Char} (h : ¬(c = '\\' ∧ d = 'n')) (r : Str) :
    fromDisplay (c :: d :: r) = c :: fromDisplay (d :: r) := by
  simp only [fromDisplay, if_neg h]

/-- Claim C10 (amended): the settings-popup display encoding round-trips,
`fromDisplay (toDisplay s) = s`, for every string s that does not already
contain the two-character sequence backslash-n; for strings containing
that sequence the round-trip fails (`c10_counterexample`), since
`toDisplay` leaves it unchanged and `fromDisplay` decodes it into a
newline. -/
theorem fromDisplay_toDisplay (s : Str) (h : hasBSn s = false) :
    fromDisplay (toDisplay s) = s := by
  match s with
  | [] => rfl
  | [c] =>
    by_cases hc : c = '\n'
    · subst hc; rfl
    · rw [toDisplay_cons_other hc]
      rfl
  | c :: d :: r =>
    obtain ⟨hcd, htl⟩ := hasBSn_two h
    by_cases hc : c = '\n'
    · subst hc
      rw [toDisplay_cons_newline, fromDisplay_cons_bsn, fromDisplay_toDisplay (d :: r) htl]
    · by_cases hcb : c = '\\'
      · subst hcb
        by_cases hd : d = '\n'
        · subst hd
          have htl2 : hasBSn r = false := by
            cases r with
            | nil => rfl
            | cons e r2 => exact (hasBSn_two htl).2
          rw [toDisplay_cons_other hc, toDisplay_cons_newline,
            fromDisplay_cons_two (by rintro ⟨-, h2⟩; exact absurd h2 (by decide)),
            fromDisplay_cons_bsn, fromDisplay_toDisplay r htl2]
        · have hdn : d ≠ 'n' := fun hdn => hcd ⟨rfl, hdn⟩
          rw [toDisplay_cons_other hc, toDisplay_cons_other hd,
            fromDisplay_cons_two (by rintro ⟨-, h2⟩; exact hdn h2)]
          rw [← toDisplay_cons_other hd, fromDisplay_toDisplay (d :: r) htl]
      · rw [toDisplay_cons_other hc]
        by_cases hd : d = '\n'
        · subst hd
          rw [toDisplay_cons_newline,
            fromDisplay_cons_two (by rintro ⟨h1, -⟩; exact hcb h1)]
          rw [← toDisplay_cons_newline, fromDisplay_toDisplay ('\n' :: r) htl]
        · rw [toDisplay_cons_other hd,
            fromDisplay_cons_two (by rintro ⟨h1, -⟩; exact hcb h1)]
          rw [← toDisplay_cons_other hd, fromDisplay_toDisplay (d :: r) htl]

theorem getSubst_no_dollar (matched pre post : Str) :
    ∀ rep : Str, '$' ∉ rep → getSubst matched pre post rep = rep := by
  intro rep
  match rep with
  | [] => intro _; rfl
  | [c] => intro _; rfl
  | c :: d :: r =>
    intro h
    have hc : c ≠ '$' := fun hc => h (hc ▸ List.mem_cons_self c (d :: r))
    have hdr : '$' ∉ d :: r := fun hm => h (List.mem_cons_of_mem c hm)
    show (if c = '$' then _ else c :: getSubst matched pre post (d :: r)) = c :: d :: r
    rw [if_neg hc, getSubst_no_dollar matched pre post (d :: r) hdr]

theorem find_unique {α : Type} (P : α → Bool) (l : List α) (j : α)
    (hj : j ∈ l) (hP : P j = true) (huniq : ∀ x ∈ l, P x = true → x = j) :
    l.find? P = some j := by
  induction l with
  | nil => cases hj
  | cons a l ih =>
    by_cases ha : P a = true
    · have : a = j := huniq a (List.mem_cons_self a l) ha
      subst this
      exact List.find?_cons_of_pos l ha
    · have hj2 : j ∈ l := by
        rcases List.mem_cons.mp hj with h1 | h1
        · exact absurd (h1 ▸ hP) ha
        · exact h1
      rw [List.find?_cons_of_neg l ha]
      exact ih hj2 (fun x hx hPx => huniq x (List.mem_cons_of_mem a hx) hPx)

theorem occursAt_append_self (p s pat : Str) :
    occursAt pat (p ++ pat ++ s) p.length = true := by
  unfold occursAt
  rw [List.append_assoc, List.drop_left]
  exact List.isPrefixOf_iff_prefix.mpr (List.prefix_append pat s)

theorem firstOccIdx_of_unique_occurrence (p s pat : Str)
    (h1 : countOcc pat (p ++ pat ++ s) = 1) :
    firstOccIdx pat (p ++ pat ++ s) = some p.length := by
  set L := p ++ pat ++ s with hL
  have hlen : p.length < L.length + 1 := by
    rw [hL]; simp [List.length_append]; omega
  have hmem : p.length ∈ (List.range (L.length + 1)).filter (occursAt pat L) :=
    List.mem_filter.mpr ⟨List.mem_range.mpr hlen, occursAt_append_self p s pat⟩
  obtain ⟨a, hfa⟩ := List.length_eq_one.mp h1
  have ha : a = p.length := by
    have h2 := hfa ▸ hmem
    simp at h2
    omega
  subst ha
  apply find_unique (occursAt pat L) _ p.length (List.mem_range.mpr hlen)
    (occursAt_append_self p s pat)
  intro x hx hPx
  have : x ∈ (List.range (L.length + 1)).filter (occursAt pat L) :=
    List.mem_filter.mpr ⟨hx, hPx⟩
  rw [hfa] at this
  simpa using this

theorem jsReplaceOnce_unique_split (p s quoted pat : Str)
    (h1 : countOcc pat (p ++ pat ++ s) = 1) (hq : '$' ∉ quoted) :
    jsReplaceOnce (p ++ pat ++ s) pat quoted = p ++ quoted ++ s := by
  have hidx := firstOccIdx_of_unique_occurrence p s pat h1
  simp only [jsReplaceOnce, hidx]
  have htake : (p ++ pat ++ s).take p.length = p := by
    rw [List.append_assoc]; exact List.take_left p (pat ++ s)
  have hdrop : (p ++ pat ++ s).drop (p.length + pat.length) = s := by
    rw [List.drop_left' (by simp [List.length_append])]
  rw [htake, hdrop, getSubst_no_dollar pat p s quoted hq]

theorem dropWhile_isWs_dollar (l : Str) :
    List.dropWhile isWsChar ('$' :: l) = '$' :: l := by
  simp [List.dropWhile_cons, show isWsChar '$' = false from rfl]

theorem jsTrimEnd_concat_dollar (l : Str) : jsTrimEnd (l ++ ['$']) = l ++ ['$'] := by
  unfold jsTrimEnd
  rw [List.reverse_append]
  simp only [List.reverse_cons, List.reverse_nil, List.nil_append, List.singleton_append]
  rw [dropWhile_isWs_dollar]
  simp

theorem jsTrim_wrapMath (b : Bool) (X : Str) : jsTrim (wrapMath b X) = wrapMath b X := by
  cases b
  · show jsTrim ('$' :: (X ++ ['$'])) = '$' :: (X ++ ['$'])
    unfold jsTrim jsTrimStart
    rw [dropWhile_isWs_dollar]
    rw [show '$' :: (X ++ ['$']) = ('$' :: X) ++ ['$'] from rfl, jsTrimEnd_concat_dollar]
  · show jsTrim ('$' :: '$' :: (X ++ ['$', '$'])) = '$' :: '$' :: (X ++ ['$', '$'])
    unfold jsTrim jsTrimStart
    rw [dropWhile_isWs_dollar]
    have hshape : '$' :: '$' :: (X ++ ['$', '$']) = ('$' :: '$' :: X ++ ['$']) ++ ['$'] := by
      simp
    rw [hshape, jsTrimEnd_concat_dollar]

theorem extract_selFragKatex (X : Str) (b : Bool) (hX : X.isEmpty = false) :
    extractTextWithMath (selFragKatex X b) = collapseBlankLines (wrapMath b X) := by
  have hann : annotateFragment [] [katexDom X b] = [katexDom X b] := by
    simp [annotateFragment]
  have h1 : replaceMathElements (annotateFragment [] [katexDom X b]) =
      [Dom.text (wrapMath b X)] := by
    rw [hann]
    cases b <;>
    simp [replaceMathElements, passDataMathNodes, passDataMathDom, passKatexNodes, passKatexDom,
      passMjxNodes, passMjxDom, passMj2Nodes, passMathTagNodes, passMathTagDom,
      cleanupNodes, cleanupDom, texAnnOfNodes, texAnnOfDom, textContentOfNodes,
      textContentOfDom, scriptTexOfNodes, scriptTexOfDom, splitFirstElem, hasClass, hasAttrKey,
      lookupAttr, isOrphanClassElem, wrapMath, katexDom, katexMathmlDom, katexHtmlDom, annEl,
      str, hX]
  have hmath : nodesHaveMath [katexDom X b] = true := by
    cases b <;>
    simp [nodesHaveMath, domHasMath, isMathMarkerElem, hasClass, katexDom, str]
  have h2 : extractBody (selFragKatex X b) =
      Except.ok (collapseBlankLines (jsTrim (textOfNodes [Dom.text (wrapMath b X)]))) := by
    rw [extractBody]
    rw [show phase0Result (selFragKatex X b).caChain = none from rfl]
    rw [show (selFragKatex X b).cloneFault = false from rfl]
    rw [show (selFragKatex X b).fragment = [katexDom X b] from rfl]
    rw [show (selFragKatex X b).origMath = ([] : List (Str × Bool)) from rfl]
    rw [hmath, h1]
    simp
  have h3 : textOfNodes [Dom.text (wrapMath b X)] = wrapMath b X := by
    simp [textOfNodes, getTextFromFragment]
  rw [extractTextWithMath]
  rw [show (selFragKatex X b).rangeCount = 1 from rfl]
  rw [h2]
  simp [h3, jsTrim_wrapMath]

theorem isEmpty_false_of_ne_nil {l : Str} (h : l ≠ []) : l.isEmpty = false := by
  cases l with
  | nil => exact absurd rfl h
  | cons c r => rfl

/-- Claim C6: with a quote active, injection succeeding and an input
element present, each send interaction — a send-button click, an unshifted
Enter with the input focused, or an Enter on the focused button followed by
the button's click (the one way both events fire in one interaction) —
produces exactly one native send action, whether the deferred send goes
through the send button or the synthesized Enter fallback; the bypass flag
is up after the interception (hence before the deferred synthesized send
dispatches) and is cleared only by the later clear timer. -/
theorem c6_single_send (env : SendEnv) (st : CtrlSt)
    (hq : st.quoted ≠ []) (hb : st.bypass = false) (hps : st.pendingSend = false)
    (hpc : st.pendingClear = false) (hio : env.injectOk = true) (hif : env.inputFound = true) :
    (runTimers env (dispatchClick env st true)).sends = st.sends + 1 ∧
    (runTimers env (dispatchEnter env st true)).sends = st.sends + 1 ∧
    (runTimers env (dispatchClick env (dispatchEnter env st false) true)).sends = st.sends + 1 ∧
    (dispatchClick env st true).bypass = true ∧
    (runTimers env (dispatchClick env st true)).bypass = false := by
  have hqe : st.quoted.isEmpty = false := isEmpty_false_of_ne_nil hq
  rcases env with ⟨io, sb, inf, ui, ct⟩
  simp only at hio hif
  subst hio hif
  cases sb <;>
  simp [runTimers, fireSendTimer, fireClearTimer, dispatchClick, dispatchEnter,
    composeAndSendFn, hideQuoteChipFn, hqe, hb, hps, hpc]

/-- Claim C3 (amended): when a quote is active and injection fails,
`composeAndSend` triggers no native send, leaves the bypass flag and the
pending-send timer untouched — but the quote session does NOT survive: the
source clears `quotedText`/`quotedDisplayText` and hides the chip BEFORE
attempting injection (content.js line 1111), so after the failed injection
the state is exactly `hideQuoteChip` of the prior state.  The original
claim's assertion that the quote keeps its prior values is refuted by
`c3_counterexample`. -/
theorem c3_inject_failure (env : SendEnv) (st : CtrlSt)
    (hq : st.quoted ≠ []) (hi : env.injectOk = false) :
    composeAndSendFn env st = hideQuoteChipFn st ∧
    (composeAndSendFn env st).quoted = [] ∧
    (composeAndSendFn env st).chip = false ∧
    (composeAndSendFn env st).sends = st.sends ∧
    (composeAndSendFn env st).bypass = st.bypass ∧
    (composeAndSendFn env st).pendingSend = st.pendingSend := by
  have hqe : st.quoted.isEmpty = false := isEmpty_false_of_ne_nil hq
  simp [composeAndSendFn, hideQuoteChipFn, hqe, hi]

theorem extract_selPhase0 (X : Str) (b : Bool) (hX : X.isEmpty = false) :
    extractTextWithMath (selPhase0 X b) = wrapMath b X := by
  cases b <;>
  simp [extractTextWithMath, extractBody, selPhase0, Selection.caChain, phase0Result,
    mathWrapElem, hasAttrKey, lookupAttr, hasClass, wrapMath, str, hX]

/-- Claim C7 (amended): whenever a quote session is committed, its display
text equals the trimmed plain visual text of the original selection
whenever that text is non-empty; when the trimmed plain text is empty, the
`visibleText || text` fallback of `showQuoteChip` sets the display text to
the raw (LaTeX-resolved) text instead — so the original claim's "never
computed from rawText, including captures where the plain visual text is
empty" is refuted by `c7_counterexample`. -/
theorem c7_display_from_plain (sel : Selection) (t d : Str)
    (h : quoteStateAfterCommit sel = some (t, d)) :
    (jsTrim sel.plain ≠ [] → d = jsTrim sel.plain) ∧
    (jsTrim sel.plain = [] → d = t) := by
  simp only [quoteStateAfterCommit, handleMouseUpResult] at h
  split at h
  · simp at h
  · split at h
    · simp at h
    · rw [Option.map_some'] at h
      have h2 : showQuoteChipPair (extractTextWithMath sel) (jsTrim sel.plain) = (t, d) :=
        Option.some.inj h
      rw [showQuoteChipPair] at h2
      have ht : t = extractTextWithMath sel := by
        have h3 := congrArg Prod.fst h2
        simpa using h3.symm
      have hd : d =
          if (jsTrim sel.plain).isEmpty then extractTextWithMath sel else jsTrim sel.plain := by
        have h3 := congrArg Prod.snd h2
        simpa using h3.symm
      constructor
      · intro hne
        have hp : (jsTrim sel.plain).isEmpty = false := isEmpty_false_of_ne_nil hne
        rw [hd, hp]
        simp
      · intro hnil
        rw [hd, hnil, ht]
        simp

/-- Claim C4: `extractTextWithMath` never propagates an exception — the
embedding is total — and whenever the body of its `try` block faults, the
function returns the selection's plain visual text trimmed of surrounding
whitespace, exactly `selection.toString().trim()`. -/
theorem c4_fails_soft (sel : Selection) (h0 : sel.rangeCount ≠ 0)
    (h : extractBody sel = Except.error ()) :
    extractTextWithMath sel = jsTrim sel.plain := by
  rw [extractTextWithMath, if_neg h0, h]

/-- Claim C9 (amended): for every selection with a range,
`isValidSelectionArea` returns false when the range's COMMON ANCESTOR
CONTAINER chain hits an excluded selector (input area, toolbar, button);
true when it is not excluded and hits a recognized response container; and
true by permissive default otherwise.  The original claim said "the
selection's starting point"; the source tests `commonAncestorContainer`,
which differs from the starting point for selections spanning regions —
`c9_counterexample` exhibits a selection whose start lies in the excluded
input area yet which is accepted. -/
theorem c9_validity (sel : Selection) (h0 : 0 < sel.rangeCount) :
    (isInsideSelector sel.caChain excludeSelectors = true → isValidSelectionArea sel = false) ∧
    (isInsideSelector sel.caChain excludeSelectors = false →
      isInsideSelector sel.caChain responseSelectors = true → isValidSelectionArea sel = true) ∧
    (isInsideSelector sel.caChain excludeSelectors = false →
      isInsideSelector sel.caChain responseSelectors = false → isValidSelectionArea sel = true) := by
  have hn : sel.rangeCount ≠ 0 := by omega
  refine ⟨fun he => ?_, fun he hr => ?_, fun he hr => ?_⟩
  · simp [isValidSelectionArea, hn, he]
  · simp [isValidSelectionArea, hn, he, hr]
  · simp [isValidSelectionArea, hn, he, hr]

theorem splitOnChar_ne_nil (sep : Char) : ∀ l : Str, splitOnChar sep l ≠ [] := by
  intro l
  cases l with
  | nil => simp [splitOnChar]
  | cons c r =>
    simp only [splitOnChar]
    rcases h : splitOnChar sep r with - | ⟨f, fs⟩
    · simp
    · by_cases hc : c = sep <;> simp [hc]

theorem splitOnChar_no_sep (sep : Char) : ∀ l : Str, sep ∉ l → splitOnChar sep l = [l] := by
  intro l
  induction l with
  | nil => intro _; rfl
  | cons c r ih =>
    intro h
    have hc : c ≠ sep := fun hc => h (hc ▸ List.mem_cons_self c r)
    have hr : sep ∉ r := fun hm => h (List.mem_cons_of_mem c hm)
    simp only [splitOnChar, ih hr]
    simp [hc]

theorem splitOnChar_append_cons (sep : Char) :
    ∀ l₁ l₂ : Str, sep ∉ l₁ → splitOnChar sep (l₁ ++ sep :: l₂) = l₁ :: splitOnChar sep l₂ := by
  intro l₁
  induction l₁ with
  | nil =>
    intro l₂ _
    simp only [List.nil_append, splitOnChar]
    rcases h : splitOnChar sep l₂ with - | ⟨f, fs⟩
    · exact absurd h (splitOnChar_ne_nil sep l₂)
    · simp
  | cons c l₁ ih =>
    intro l₂ h
    have hc : c ≠ sep := fun hc => h (hc ▸ List.mem_cons_self c l₁)
    have hr : sep ∉ l₁ := fun hm => h (List.mem_cons_of_mem c hm)
    rw [List.cons_append]
    simp only [splitOnChar]
    rw [ih l₂ hr]
    simp [hc]

theorem splitOnChar_joinSep (sep : Char) :
    ∀ xs : List Str, xs ≠ [] → (∀ x ∈ xs, sep ∉ x) →
      splitOnChar sep (joinSep [sep] xs) = xs := by
  intro xs
  induction xs with
  | nil => intro h _; exact absurd rfl h
  | cons x xs ih =>
    intro _ hmem
    cases xs with
    | nil => exact splitOnChar_no_sep sep x (hmem x (List.mem_cons_self x []))
    | cons y ys =>
      have hx : sep ∉ x := hmem x (List.mem_cons_self x (y :: ys))
      have h2 : joinSep [sep] (x :: y :: ys) = x ++ sep :: joinSep [sep] (y :: ys) := by
        simp [joinSep]
      rw [h2, splitOnChar_append_cons sep x _ hx,
        ih (by simp) (fun z hz => hmem z (List.mem_cons_of_mem x hz))]

theorem not_mem_joinSep {c : Char} {sep : Str} :
    ∀ xs : List Str, (∀ x ∈ xs, c ∉ x) → c ∉ sep → c ∉ joinSep sep xs := by
  intro xs
  induction xs with
  | nil => intro _ _ h; simp [joinSep] at h
  | cons x xs ih =>
    intro hx hs hmem
    cases xs with
    | nil =>
      exact hx x (List.mem_cons_self x []) (by simpa [joinSep] using hmem)
    | cons y ys =>
      rw [show joinSep sep (x :: y :: ys) = x ++ sep ++ joinSep sep (y :: ys) from by
        simp [joinSep]] at hmem
      rcases List.mem_append.mp hmem with h1 | h1
      · rcases List.mem_append.mp h1 with h2 | h2
        · exact hx x (List.mem_cons_self x (y :: ys)) h2
        · exact hs h2
      · exact ih (fun z hz => hx z (List.mem_cons_of_mem x hz)) hs h1

theorem of_mem_zipWith {α β γ : Type} {f : α → β → γ} :
    ∀ {l1 : List α} {l2 : List β} {x : γ}, x ∈ List.zipWith f l1 l2 →
      ∃ a ∈ l1, ∃ b ∈ l2, x = f a b := by
  intro l1
  induction l1 with
  | nil => intro l2 x h; simp at h
  | cons a l1 ih =>
    intro l2 x h
    cases l2 with
    | nil => simp at h
    | cons b l2 =>
      rcases List.mem_cons.mp h with h1 | h1
      · exact ⟨a, List.mem_cons_self a l1, b, List.mem_cons_self b l2, h1⟩
      · obtain ⟨a2, ha, b2, hb, hx⟩ := ih h1
        exact ⟨a2, List.mem_cons_of_mem a ha, b2, List.mem_cons_of_mem b hb, hx⟩

theorem mem_padCell {c : Char} {s : Str} {w : Nat} (h : c ∈ padCell s w) :
    c ∈ s ∨ c = ' ' := by
  rcases List.mem_append.mp h with h1 | h1
  · exact Or.inl h1
  · exact Or.inr (List.eq_of_mem_replicate h1)

theorem mem_nlToSpaceAux {c : Char} :
    ∀ (l : Str) (b : Bool), c ∈ nlToSpaceAux b l → (c ∈ l ∧ c ≠ '\n') ∨ c = ' ' := by
  intro l
  induction l with
  | nil => intro b h; simp [nlToSpaceAux] at h
  | cons a r ih =>
    intro b h
    by_cases ha : a = '\n'
    · subst ha
      rw [show nlToSpaceAux b ('\n' :: r) =
          (if b then nlToSpaceAux true r else ' ' :: nlToSpaceAux true r) from by
        simp [nlToSpaceAux]] at h
      cases b with
      | true =>
        simp only [if_pos] at h
        rcases ih true h with ⟨h1, h2⟩ | h1
        · exact Or.inl ⟨List.mem_cons_of_mem _ h1, h2⟩
        · exact Or.inr h1
      | false =>
        simp only [Bool.false_eq_true, if_neg] at h
        rcases List.mem_cons.mp h with h1 | h1
        · exact Or.inr h1
        · rcases ih true h1 with ⟨h2, h3⟩ | h2
          · exact Or.inl ⟨List.mem_cons_of_mem _ h2, h3⟩
          · exact Or.inr h2
    · rw [show nlToSpaceAux b (a :: r) = a :: nlToSpaceAux false r from by
        simp [nlToSpaceAux, ha]] at h
      rcases List.mem_cons.mp h with h1 | h1
      · exact Or.inl ⟨h1 ▸ List.mem_cons_self a r, h1 ▸ ha⟩
      · rcases ih false h1 with ⟨h2, h3⟩ | h2
        · exact Or.inl ⟨List.mem_cons_of_mem _ h2, h3⟩
        · exact Or.inr h2

theorem mem_jsTrim {c : Char} {l : Str} (h : c ∈ jsTrim l) : c ∈ l := by
  unfold jsTrim jsTrimStart jsTrimEnd at h
  rw [List.mem_reverse] at h
  have h1 : c ∈ (List.dropWhile isWsChar l).reverse := (List.dropWhile_sublist _).mem h
  rw [List.mem_reverse] at h1
  exact (List.dropWhile_sublist _).mem h1

theorem mem_cellProcess {c : Char} {s : Str} (h : c ∈ cellProcess s) :
    c ∈ s ∨ c = ' ' := by
  unfold cellProcess collapseNLRunsToSpace at h
  rcases mem_nlToSpaceAux (jsTrim s) false h with ⟨h1, -⟩ | h1
  · exact Or.inl (mem_jsTrim h1)
  · exact Or.inr h1

theorem noNL_cellProcess (s : Str) : '\n' ∉ cellProcess s := by
  intro h
  unfold cellProcess collapseNLRunsToSpace at h
  rcases mem_nlToSpaceAux (jsTrim s) false h with ⟨-, h2⟩ | h1
  · exact h2 rfl
  · simp at h1

theorem pipe_bridge :
    ∀ cs : List Str, cs ≠ [] →
      str "| " ++ joinSep (str " | ") cs ++ str " |" =
        joinSep ['|'] ([] :: cs.map (fun c2 => ' ' :: (c2 ++ [' '])) ++ [[]]) := by
  intro cs
  induction cs with
  | nil => intro h; exact absurd rfl h
  | cons x xs ih =>
    intro _
    cases xs with
    | nil =>
      show ('|' :: ' ' :: x) ++ (' ' :: ['|']) = _
      simp [joinSep, str]
    | cons y ys =>
      have h2 : joinSep (str " | ") (x :: y :: ys) =
          x ++ str " | " ++ joinSep (str " | ") (y :: ys) := by
        simp [joinSep]
      have h3 : joinSep ['|'] ([] :: (x :: y :: ys).map (fun c2 => ' ' :: (c2 ++ [' '])) ++ [[]]) =
          ('|' :: ' ' :: (x ++ [' '])) ++
            joinSep ['|'] ([] :: (y :: ys).map (fun c2 => ' ' :: (c2 ++ [' '])) ++ [[]]) := by
        simp [joinSep, List.map_cons]
      rw [h2, h3, ← ih (by simp)]
      simp [str]

theorem pipeLine_fields (cs : List Str) (h1 : cs ≠ []) (h2 : ∀ x ∈ cs, '|' ∉ x) :
    (((splitOnChar '|' (str "| " ++ joinSep (str " | ") cs ++ str " |")).drop 1).dropLast).length
      = cs.length := by
  rw [pipe_bridge cs h1]
  rw [splitOnChar_joinSep '|' _ (by simp) ?hmem]
  case hmem =>
    intro x hx
    rcases List.mem_cons.mp hx with h3 | h3
    · simp [h3]
    · rcases List.mem_append.mp h3 with h4 | h4
      · obtain ⟨c2, hc2, hxe⟩ := List.mem_map.mp h4
        subst hxe
        intro hmem
        rcases List.mem_cons.mp hmem with h5 | h5
        · simp at h5
        · rcases List.mem_append.mp h5 with h6 | h6
          · exact h2 c2 hc2 h6
          · simp at h6
      · simp at h4
        simp [h4]
  simp [List.dropLast_concat]

theorem pipeLine_noNL (cs : List Str) (h2 : ∀ x ∈ cs, '\n' ∉ x) :
    '\n' ∉ str "| " ++ joinSep (str " | ") cs ++ str " |" := by
  intro hmem
  rcases List.mem_append.mp hmem with h1 | h1
  · rcases List.mem_append.mp h1 with h3 | h3
    · simp [str] at h3
    · exact not_mem_joinSep cs h2 (by decide) h3
  · simp [str] at h1

theorem foldl_max_le_init (m : List (List Str)) :
    ∀ a : Nat, a ≤ m.foldl (fun acc row => max acc row.length) a := by
  induction m with
  | nil => intro a; simp
  | cons r m ih =>
    intro a
    calc a ≤ max a r.length := Nat.le_max_left a r.length
      _ ≤ m.foldl (fun acc row => max acc row.length) (max a r.length) := ih (max a r.length)

theorem length_le_foldl_max {row : List Str} :
    ∀ (m : List (List Str)) (a : Nat), row ∈ m →
      row.length ≤ m.foldl (fun acc row => max acc row.length) a := by
  intro m
  induction m with
  | nil => intro a h; cases h
  | cons r m ih =>
    intro a h
    rw [List.foldl_cons]
    rcases List.mem_cons.mp h with h1 | h1
    · subst h1
      calc row.length ≤ max a row.length := Nat.le_max_right a row.length
        _ ≤ m.foldl (fun acc row => max acc row.length) (max a row.length) :=
          foldl_max_le_init m (max a row.length)
    · exact ih (max a r.length) h1

theorem length_le_maxCols {m : List (List Str)} {row : List Str} (h : row ∈ m) :
    row.length ≤ maxCols m := length_le_foldl_max m 0 h

theorem padRow_length {n : Nat} {row : List Str} (h : row.length ≤ n) :
    (padRow n row).length = n := by
  simp [padRow]
  omega

theorem tableToMarkdown_cons (r0 : List Str) (rs : List (List Str)) :
    tableToMarkdown (r0 :: rs) =
      joinSep ['\n']
        (rowLine (tWidths (r0 :: rs)) (padRow (tCols (r0 :: rs)) (r0.map cellProcess))
          :: sepLine (tWidths (r0 :: rs))
          :: ((rs.map (fun row => row.map cellProcess)).map
              (padRow (tCols (r0 :: rs)))).map (rowLine (tWidths (r0 :: rs)))) := by
  simp [tableToMarkdown, tCols, tMatrix, tWidths, List.map_cons]

/-- Claim C1 (amended): for every table with at least one extracted row and a
positive maximum column count, `tableToMarkdown` returns exactly R+1
newline-separated lines (header from row 0, dash separator, R-1 data rows);
and, provided no raw cell text contains the pipe character, every line has
the same number of pipe-delimited cell fields (the segments strictly
between the pipes), equal to the maximum column count across all rows
after short rows are padded.  The no-pipe proviso is forced by
`c1_counterexample`: a pipe inside a cell changes that line's field
count. -/
theorem c1_table_shape (rawRows : List (List Str)) (hr : rawRows ≠ [])
    (hc : 1 ≤ tCols rawRows) :
    (splitOnChar '\n' (tableToMarkdown rawRows)).length = rawRows.length + 1 ∧
    ((∀ row ∈ rawRows, ∀ cell ∈ row, '|' ∉ cell) →
      ∀ line ∈ splitOnChar '\n' (tableToMarkdown rawRows),
        (((splitOnChar '|' line).drop 1).dropLast).length = tCols rawRows) := by
  obtain ⟨r0, rs, rfl⟩ : ∃ r0 rs, rawRows = r0 :: rs := by
    cases rawRows with
    | nil => exact absurd rfl hr
    | cons a b => exact ⟨a, b, rfl⟩
  have hwslen : (tWidths (r0 :: rs)).length = tCols (r0 :: rs) := by
    simp [tWidths]
  have hrowlen : ∀ row ∈ (r0 :: rs),
      (padRow (tCols (r0 :: rs)) (row.map cellProcess)).length = tCols (r0 :: rs) := by
    intro row hrow
    apply padRow_length
    exact length_le_maxCols (List.mem_map.mpr ⟨row, hrow, rfl⟩)
  have hcellNL : ∀ row ∈ (r0 :: rs),
      ∀ cell ∈ padRow (tCols (r0 :: rs)) (row.map cellProcess), '\n' ∉ cell := by
    intro row _ cell hcell hmem
    rcases List.mem_append.mp hcell with h1 | h1
    · obtain ⟨raw, _, rfl⟩ := List.mem_map.mp h1
      exact noNL_cellProcess raw hmem
    · rw [List.eq_of_mem_replicate h1] at hmem
      simp at hmem
  have hlineNL : ∀ row ∈ (r0 :: rs),
      '\n' ∉ rowLine (tWidths (r0 :: rs)) (padRow (tCols (r0 :: rs)) (row.map cellProcess)) := by
    intro row hrow
    rw [rowLine]
    apply pipeLine_noNL
    intro x hx
    obtain ⟨a, ha, b, -, rfl⟩ := of_mem_zipWith hx
    intro hmem
    rcases mem_padCell hmem with h1 | h1
    · exact hcellNL row hrow a ha h1
    · simp at h1
  have hsepNL : '\n' ∉ sepLine (tWidths (r0 :: rs)) := by
    rw [sepLine]
    apply pipeLine_noNL
    intro x hx hmem
    obtain ⟨w, -, rfl⟩ := List.mem_map.mp hx
    have := List.eq_of_mem_replicate hmem
    simp at this
  have hsplit : splitOnChar '\n' (tableToMarkdown (r0 :: rs)) =
      rowLine (tWidths (r0 :: rs)) (padRow (tCols (r0 :: rs)) (r0.map cellProcess))
        :: sepLine (tWidths (r0 :: rs))
        :: ((rs.map (fun row => row.map cellProcess)).map
            (padRow (tCols (r0 :: rs)))).map (rowLine (tWidths (r0 :: rs))) := by
    rw [tableToMarkdown_cons]
    apply splitOnChar_joinSep
    · simp
    · intro x hx
      rcases List.mem_cons.mp hx with h1 | h1
      · subst h1
        exact hlineNL r0 (List.mem_cons_self r0 rs)
      rcases List.mem_cons.mp h1 with h2 | h2
      · subst h2
        exact hsepNL
      · obtain ⟨row2, hrow2, rfl⟩ := List.mem_map.mp h2
        obtain ⟨row3, hrow3, rfl⟩ := List.mem_map.mp hrow2
        obtain ⟨row4, hrow4, rfl⟩ := List.mem_map.mp hrow3
        exact hlineNL row4 (List.mem_cons_of_mem r0 hrow4)
  refine ⟨?_, ?_⟩
  · rw [hsplit]
    simp
  · intro hp line hline
    have hfieldsRow : ∀ row ∈ (r0 :: rs),
        (((splitOnChar '|' (rowLine (tWidths (r0 :: rs))
            (padRow (tCols (r0 :: rs)) (row.map cellProcess)))).drop 1).dropLast).length =
          tCols (r0 :: rs) := by
      intro row hrow
      rw [rowLine]
      have hzl : (List.zipWith padCell (padRow (tCols (r0 :: rs)) (row.map cellProcess))
          (tWidths (r0 :: rs))).length = tCols (r0 :: rs) := by
        rw [List.length_zipWith, hrowlen row hrow, hwslen]
        omega
      have hne : List.zipWith padCell (padRow (tCols (r0 :: rs)) (row.map cellProcess))
          (tWidths (r0 :: rs)) ≠ [] := by
        intro hnil
        rw [hnil] at hzl
        simp at hzl
        omega
      have hfree : ∀ x ∈ List.zipWith padCell (padRow (tCols (r0 :: rs)) (row.map cellProcess))
          (tWidths (r0 :: rs)), '|' ∉ x := by
        intro x hx
        obtain ⟨a, ha, b, -, rfl⟩ := of_mem_zipWith hx
        intro hmem
        rcases mem_padCell hmem with h1 | h1
        · rcases List.mem_append.mp ha with h2 | h2
          · obtain ⟨raw, hraw, rfl⟩ := List.mem_map.mp h2
            rcases mem_cellProcess h1 with h3 | h3
            · exact hp row hrow raw hraw h3
            · simp at h3
          · rw [List.eq_of_mem_replicate h2] at h1
            simp at h1
        · simp at h1
      calc (((splitOnChar '|' (str "| " ++ joinSep (str " | ")
              (List.zipWith padCell (padRow (tCols (r0 :: rs)) (row.map cellProcess))
                (tWidths (r0 :: rs))) ++ str " |")).drop 1).dropLast).length
          = (List.zipWith padCell (padRow (tCols (r0 :: rs)) (row.map cellProcess))
              (tWidths (r0 :: rs))).length := pipeLine_fields _ hne hfree
        _ = tCols (r0 :: rs) := hzl
    have hfieldsSep :
        (((splitOnChar '|' (sepLine (tWidths (r0 :: rs)))).drop 1).dropLast).length =
          tCols (r0 :: rs) := by
      rw [sepLine]
      have hlen : ((tWidths (r0 :: rs)).map (fun w => List.replicate w '-')).length =
          tCols (r0 :: rs) := by
        rw [List.length_map, hwslen]
      have hne : (tWidths (r0 :: rs)).map (fun w => List.replicate w '-') ≠ [] := by
        intro hnil
        rw [hnil] at hlen
        simp at hlen
        omega
      have hfree : ∀ x ∈ (tWidths (r0 :: rs)).map (fun w => List.replicate w '-'), '|' ∉ x := by
        intro x hx hmem
        obtain ⟨w, -, rfl⟩ := List.mem_map.mp hx
        have := List.eq_of_mem_replicate hmem
        simp at this
      calc (((splitOnChar '|' (str "| " ++ joinSep (str " | ")
              ((tWidths (r0 :: rs)).map (fun w => List.replicate w '-')) ++ str " |")).drop
              1).dropLast).length
          = ((tWidths (r0 :: rs)).map (fun w => List.replicate w '-')).length :=
            pipeLine_fields _ hne hfree
        _ = tCols (r0 :: rs) := hlen
    rw [hsplit] at hline
    rcases List.mem_cons.mp hline with h1 | h1
    · subst h1
      exact hfieldsRow r0 (List.mem_cons_self r0 rs)
    rcases List.mem_cons.mp h1 with h2 | h2
    · subst h2
      exact hfieldsSep
    · obtain ⟨row2, hrow2, rfl⟩ := List.mem_map.mp h2
      obtain ⟨row3, hrow3, rfl⟩ := List.mem_map.mp hrow2
      obtain ⟨row4, hrow4, rfl⟩ := List.mem_map.mp hrow3
      exact hfieldsRow row4 (List.mem_cons_of_mem r0 hrow4)

theorem hasTripleNL_cons_other {c : Char} (hc : c ≠ '\n') (r : Str) :
    hasTripleNL (c :: r) = hasTripleNL r := by
  simp [hasTripleNL_cons, hc]

theorem leadNL_append_zero {m : Str} (hm : leadNL m = 0) :
    ∀ l : Str, leadNL (l ++ m) = leadNL l := by
  intro l
  induction l with
  | nil => simpa using hm
  | cons c r ih => rw [List.cons_append, leadNL_cons, leadNL_cons, ih]

theorem hasTripleNL_append_zero {m : Str} (hm : leadNL m = 0) :
    ∀ l : Str, hasTripleNL (l ++ m) = (hasTripleNL l || hasTripleNL m) := by
  intro l
  induction l with
  | nil => rw [List.nil_append]; simp [hasTripleNL]
  | cons c r ih =>
    rw [List.cons_append, hasTripleNL_cons, hasTripleNL_cons, leadNL_append_zero hm, ih,
      Bool.or_assoc]

theorem hasTripleNL_wrapMath (b : Bool) (X : Str) (hX : hasTripleNL X = false) :
    hasTripleNL (wrapMath b X) = false := by
  cases b
  · show hasTripleNL ('$' :: (X ++ ['$'])) = false
    rw [hasTripleNL_cons_other (by decide), hasTripleNL_append_zero (by decide), hX]
    decide
  · show hasTripleNL ('$' :: '$' :: (X ++ ['$', '$'])) = false
    rw [hasTripleNL_cons_other (by decide), hasTripleNL_cons_other (by decide),
      hasTripleNL_append_zero (by decide), hX]
    decide

theorem leadNL_wrapMath (b : Bool) (X : Str) : leadNL (wrapMath b X) = 0 := by
  cases b <;> rfl

theorem collapse_wrapMath (b : Bool) (X : Str) (hX : hasTripleNL X = false) :
    collapseBlankLines (wrapMath b X) = wrapMath b X :=
  collapseAux_eq_self (wrapMath b X) 0 (hasTripleNL_wrapMath b X hX)
    (by rw [leadNL_wrapMath]; omega)

/-- Claim C5 (amended): for a selection consisting of exactly one math
region with non-empty source notation X, extraction returns `$X$` (inline)
or `$$X$$` (block): unconditionally on the direct `[data-math]`-ancestor
path (phase 0), and on the cloned-fragment KaTeX path provided X contains
no run of three or more consecutive newlines — the final blank-line
collapse otherwise rewrites X itself, as `c5_counterexample` shows.  The
non-emptiness of X is also forced: an empty attribute or annotation is
falsy in the source and is not substituted. -/
theorem c5_single_math_region (X : Str) (b : Bool) (hX : X ≠ []) :
    extractTextWithMath (selPhase0 X b) = wrapMath b X ∧
    (hasTripleNL X = false → extractTextWithMath (selFragKatex X b) = wrapMath b X) := by
  have hXe : X.isEmpty = false := isEmpty_false_of_ne_nil hX
  refine ⟨extract_selPhase0 X b hXe, fun ht => ?_⟩
  rw [extract_selFragKatex X b hXe, collapse_wrapMath b X ht]

/-- Claim C5 counterexample: a display KaTeX region with source notation
`a\n\n\nb` (containing a run of three newlines) extracts to
`$$a\n\nb$$`, not to `$$X$$`, because the blank-line collapse runs over
the substituted text. -/
theorem c5_counterexample :
    extractTextWithMath (selFragKatex (str "a\n\n\nb") true) = str "$$a\n\nb$$" ∧
    str "$$a\n\nb$$" ≠ wrapDisplay (str "a\n\n\nb") := by
  constructor
  · rw [extract_selFragKatex (str "a\n\n\nb") true (by decide)]
    decide
  · decide

/-- Claim C5 witness at the source notation `E=mc^2`, via both the phase-0
path and the fragment path. -/
theorem c5_witness :
    extractTextWithMath (selPhase0 (str "E=mc^2") true) = wrapMath true (str "E=mc^2") ∧
    extractTextWithMath (selFragKatex (str "E=mc^2") true) = wrapMath true (str "E=mc^2") := by
  have h := c5_single_math_region (str "E=mc^2") true (by decide)
  exact ⟨h.1, h.2 (by decide)⟩

/-- Claim C1 counterexample: for the 1-row, 1-column table whose only cell
text is `a|b`, the premises of the claim hold (R,C ≥ 1) but the two emitted
lines do not have the same number of pipe-delimited fields, so the claim as
stated is false. -/
theorem c1_counterexample :
    (1 ≤ tCols pipeCellTable) ∧
    ¬ (∀ line ∈ splitOnChar '\n' (tableToMarkdown pipeCellTable),
        (((splitOnChar '|' line).drop 1).dropLast).length = tCols pipeCellTable) := by
  decide

/-- Claim C1 witness: the spec's 2-by-2 example table `A,BB / CCC,D` yields
3 lines, each with exactly 2 pipe-delimited cell fields. -/
theorem c1_witness :
    (splitOnChar '\n' (tableToMarkdown exTable)).length = 3 ∧
    (∀ line ∈ splitOnChar '\n' (tableToMarkdown exTable),
      (((splitOnChar '|' line).drop 1).dropLast).length = 2) := by
  have h := c1_table_shape exTable (by decide) (by decide)
  refine ⟨by simpa using h.1, fun line hl => ?_⟩
  exact (h.2 (by decide) line hl).trans (by decide)

/-- Claim C2 (amended): writing the template as `p ++ "[SELECTED]" ++ s`,
if the placeholder occurs in the template exactly once and the quote text
contains no dollar character (which JavaScript `replace` would treat as a
substitution escape), the merged citation built by `composeAndSend` /
`injectTextToInput` is exactly `p ++ quoted ++ s`: the quote sits at the
position the placeholder occupied.  The original claim's further clauses —
the quote occurring exactly once and no placeholder remaining — fail in
general (see `c2_counterexample`) and hold exactly when `p ++ quoted ++ s`
has no other occurrence of the quote, respectively no occurrence of the
placeholder. -/
theorem c2_substitution (p s quoted : Str)
    (h1 : countOcc placeholderTok (p ++ placeholderTok ++ s) = 1)
    (hq : '$' ∉ quoted) :
    composedCitation (p ++ placeholderTok ++ s) quoted = p ++ quoted ++ s :=
  jsReplaceOnce_unique_split p s quoted placeholderTok h1 hq

/-- Claim C2 counterexample: with template `"[SELECTED]"` (placeholder
exactly once) and quote text `"[SELECTED]"`, the merged message still
contains the placeholder token, contradicting the claim that no occurrence
remains; and with template `"a[SELECTED]"` and quote `"a"`, the quote
occurs twice in the merged message, contradicting the exactly-once
clause. -/
theorem c2_counterexample :
    countOcc placeholderTok placeholderTok = 1 ∧
    countOcc placeholderTok (composedCitation placeholderTok placeholderTok) = 1 ∧
    countOcc (str "a") (composedCitation (str "a[SELECTED]") (str "a")) = 2 := by
  decide

/-- Claim C2 witness at the template `"Q: [SELECTED] :end"` and the quote
`"hello"`. -/
theorem c2_witness :
    countOcc placeholderTok (str "Q: " ++ placeholderTok ++ str " :end") = 1 ∧
    composedCitation (str "Q: " ++ placeholderTok ++ str " :end") (str "hello") =
      str "Q: " ++ str "hello" ++ str " :end" :=
  ⟨by decide, c2_substitution (str "Q: ") (str " :end") (str "hello") (by decide) (by decide)⟩

/-- Claim C3 counterexample: with an active quote `"hi"`, a shown chip and
failing injection, `composeAndSend` empties the quote and hides the chip
(while indeed not sending), contradicting the claim that the quote session
is unchanged and the indicator stays shown. -/
theorem c3_counterexample :
    stC3.quoted = str "hi" ∧ stC3.chip = true ∧ envFail.injectOk = false ∧
    (composeAndSendFn envFail stC3).quoted = [] ∧
    (composeAndSendFn envFail stC3).chip = false ∧
    (composeAndSendFn envFail stC3).sends = stC3.sends := by
  refine ⟨rfl, rfl, rfl, ?_, ?_, ?_⟩ <;> decide

/-- Claim C3 witness at a concrete failing-injection environment. -/
theorem c3_witness :
    (composeAndSendFn envFail stC3).quoted = [] ∧
    (composeAndSendFn envFail stC3).chip = false ∧
    (composeAndSendFn envFail stC3).sends = stC3.sends ∧
    (composeAndSendFn envFail stC3).pendingSend = stC3.pendingSend := by
  have h := c3_inject_failure envFail stC3 (by decide) rfl
  exact ⟨h.2.1, h.2.2.1, h.2.2.2.1, h.2.2.2.2.2⟩

/-- Claim C4 witness: a selection whose fragment processing faults yields
the trimmed plain text. -/
theorem c4_witness :
    extractBody selFault = Except.error () ∧
    extractTextWithMath selFault = jsTrim selFault.plain :=
  ⟨rfl, c4_fails_soft selFault (by decide) rfl⟩

/-- Claim C6 witness at a concrete environment and quote state, for all
three interaction shapes. -/
theorem c6_witness :
    (runTimers env6 (dispatchClick env6 st6 true)).sends = 1 ∧
    (runTimers env6 (dispatchEnter env6 st6 true)).sends = 1 ∧
    (runTimers env6 (dispatchClick env6 (dispatchEnter env6 st6 false) true)).sends = 1 ∧
    (dispatchClick env6 st6 true).bypass = true := by
  have h := c6_single_send env6 st6 (by decide) rfl rfl rfl rfl rfl
  exact ⟨by simpa using h.1, by simpa using h.2.1, by simpa using h.2.2.1, h.2.2.2.1⟩

/-- Claim C7 witness: a plain-text capture whose display text is the
trimmed plain selection text. -/
theorem c7_witness :
    quoteStateAfterCommit selW7 = some (str "hello", str "hello") ∧
    (str "hello" : Str) = jsTrim selW7.plain := by
  have h := c7_display_from_plain selW7 (str "hello") (str "hello") (by decide)
  exact ⟨by decide, h.1 (by decide)⟩

/-- Claim C7 counterexample: capturing a selection inside a `[data-math]`
wrapper whose plain visual text is a single space yields a quote whose
display text is the raw text `$x$`, not the (empty) trimmed plain text. -/
theorem c7_counterexample :
    quoteStateAfterCommit selC7 = some (str "$x$", str "$x$") ∧
    jsTrim selC7.plain = [] ∧ (str "$x$" : Str) ≠ [] := by
  refine ⟨by decide, by decide, by decide⟩

/-- Claim C9 counterexample: a selection starting inside the excluded
`.input-area` element whose common ancestor container is the document body
is accepted by `isValidSelectionArea`, although the claim as stated
requires it to be rejected. -/
theorem c9_counterexample :
    isInsideSelector selC9.anchorChain excludeSelectors = true ∧
    isValidSelectionArea selC9 = true := by
  decide

/-- Claim C9 witness: a selection whose common ancestor is inside the
input area is rejected; one inside a plain body is accepted by the
permissive fallback. -/
theorem c9_witness :
    isValidSelectionArea selExcluded = false ∧ isValidSelectionArea selFallback = true := by
  have h1 := c9_validity selExcluded (by decide)
  have h2 := c9_validity selFallback (by decide)
  exact ⟨h1.1 (by decide), h2.2.2 (by decide) (by decide)⟩

/-- Claim C8: the blank-line collapse step (every run of three or more
newlines replaced by exactly two) is idempotent: applying it to its own
output changes nothing. -/
theorem c8_collapse_idempotent (s : Str) :
    collapseBlankLines (collapseBlankLines s) = collapseBlankLines s :=
  collapseAux_collapseAux s 0

/-- Claim C10 counterexample: the two-character string backslash-n is
unchanged by `toDisplay` but decoded by `fromDisplay`, so the round-trip
returns a newline instead of the original string. -/
theorem c10_counterexample :
    fromDisplay (toDisplay ['\\', 'n']) = ['\n'] ∧ (['\n'] : Str) ≠ ['\\', 'n'] := by
  decide

/-- Claim C10 witness at the string `line1\nline2`. -/
theorem c10_witness :
    hasBSn (str "line1\nline2") = false ∧
    fromDisplay (toDisplay (str "line1\nline2")) = str "line1\nline2" :=
  ⟨by decide, fromDisplay_toDisplay (str "line1\nline2") (by decide)⟩
